import Mathlib

/-!
Verification development for the inbound-email ingestion and routing pipeline
of the repository (webhook handler, EmailRouter service, DNS verifier,
domain monitor).

JavaScript strings are modelled as `List Char`; the regular expressions used
by the source are modelled by executable functions that mirror the JS regex
engine's leftmost-match, greedy/lazy and backtracking behaviour on the
concrete patterns appearing in the source.  The relational store is modelled
as a record of tables (lists of rows); `BEGIN/COMMIT/ROLLBACK` become
all-or-nothing updates of that record.
-/

/-! ## Character classes used by the JS regexes and string methods -/

/-- The character set matched by `\s` in a JS regex (and removed by
`String.prototype.trim`): ASCII whitespace, NBSP, the Unicode space
separators, the line separators and the BOM. -/
def jsIsSpace (c : Char) : Bool :=
  c == ' ' || c == '\t' || c == '\n' || c == '\r' ||
  c.toNat == 11 || c.toNat == 12 || c.toNat == 160 || c.toNat == 5760 ||
  (8192 ≤ c.toNat && c.toNat ≤ 8202) || c.toNat == 8232 || c.toNat == 8233 ||
  c.toNat == 8239 || c.toNat == 8287 || c.toNat == 12288 || c.toNat == 65279

/-- JS `.` (without the `s` flag) matches everything except a LineTerminator:
LF, CR, U+2028, U+2029. -/
def isLineTerm (c : Char) : Bool :=
  c == '\n' || c == '\r' || c.toNat == 8232 || c.toNat == 8233

/-- ASCII lower-casing, the canonicalisation used by the `i` flag on the
ASCII-only patterns of the source (a non-ASCII character never canonicalises
to an ASCII one for regexes without the `u` flag). -/
def lowerAscii (c : Char) : Char :=
  if 'A' ≤ c && c ≤ 'Z' then Char.ofNat (c.toNat + 32) else c

/-- Case-insensitive literal-pattern strip: if `s` starts with `pat`
(pattern given in lower case), return the remainder. -/
def ciStrip : List Char → List Char → Option (List Char)
  | [], s => some s
  | _ :: _, [] => none
  | p :: ps, c :: cs => if lowerAscii c = p then ciStrip ps cs else none

/-- JS `String.prototype.includes` on a literal pattern. -/
def containsSub (pat : List Char) : List Char → Bool
  | [] => pat.isEmpty
  | c :: rest => pat.isPrefixOf (c :: rest) || containsSub pat rest

/-- JS `String.prototype.trim`. -/
def jsTrim (l : List Char) : List Char :=
  (l.dropWhile jsIsSpace).rdropWhile jsIsSpace

/-! ## Sender-address extraction (`extractSenderEmail` in `webhook.js`)

`/<(.+?)>/` : lazy group — leftmost `<`, then the shortest non-empty
LineTerminator-free stretch up to a `>`.
`/([a-zA-Z0-9._-]+@[a-zA-Z0-9._-]+\.[a-zA-Z0-9._-]+)/` : with backtracking
this matches, at the leftmost feasible start, a maximal word-run, `@`, and a
maximal word-run containing an interior dot; the whole of both runs is the
match.
`/original-sender:\s*([^\s]+@[^\s]+)/i` : after the token and optional
whitespace, a maximal non-whitespace run containing an interior `@`. -/

/-- Characters before the first `>` of the list, if any. -/
def firstGtSplit : List Char → Option (List Char)
  | [] => none
  | c :: rest =>
    if c = '>' then some []
    else
      match firstGtSplit rest with
      | some pre => some (c :: pre)
      | none => none

/-- Characters before the last `>` of the list, if any. -/
def lastGtSplit : List Char → Option (List Char)
  | [] => none
  | c :: rest =>
    match lastGtSplit rest with
    | some pre => some (c :: pre)
    | none => if c = '>' then some [] else none

/-- Attempt of `/<(.+?)>/` just after a `<`: the group is the first
character (consumed by the mandatory `.`) plus everything before the next
`>`, all within the LineTerminator-free stretch. -/
def angleLazyAt (rest : List Char) : Option (List Char) :=
  match rest.takeWhile (fun c => !(isLineTerm c)) with
  | [] => none
  | c0 :: tail =>
    match firstGtSplit tail with
    | some pre => some (c0 :: pre)
    | none => none

/-- The group of the leftmost match of `/<(.+?)>/`, if any. -/
def angleLazyMatch : List Char → Option (List Char)
  | [] => none
  | c :: rest =>
    if c = '<' then
      match angleLazyAt rest with
      | some g => some g
      | none => angleLazyMatch rest
    else angleLazyMatch rest

/-- Attempt of the greedy `/<(.+)>/` just after a `<`: first character plus
everything before the last `>` of the LineTerminator-free stretch. -/
def angleGreedyAt (rest : List Char) : Option (List Char) :=
  match rest.takeWhile (fun c => !(isLineTerm c)) with
  | [] => none
  | c0 :: tail =>
    match lastGtSplit tail with
    | some pre => some (c0 :: pre)
    | none => none

/-- The group of the leftmost match of `/<(.+)>/`, if any. -/
def angleGreedyMatch : List Char → Option (List Char)
  | [] => none
  | c :: rest =>
    if c = '<' then
      match angleGreedyAt rest with
      | some g => some g
      | none => angleGreedyMatch rest
    else angleGreedyMatch rest

/-- The class `[a-zA-Z0-9._-]` of the bare-address regex. -/
def isEmailChar (c : Char) : Bool :=
  ('a' ≤ c && c ≤ 'z') || ('A' ≤ c && c ≤ 'Z') || ('0' ≤ c && c ≤ '9') ||
  c == '.' || c == '_' || c == '-'

/-- Is there a `.` in the list with at least one element after it?  Applied
to the tail of the domain run this decides whether the backtracking split
`W+ \. W+` of the run can succeed. -/
def dotNotLast : List Char → Bool
  | [] => false
  | [_] => false
  | c :: d :: rest => c == '.' || dotNotLast (d :: rest)

/-- The domain run admits the split `W+ \. W+`: a dot at an interior
position (neither first nor last). -/
def dotInteriorOk : List Char → Bool
  | [] => false
  | _ :: tail => dotNotLast tail

/-- Is there an `@` in the list with at least one element after it? -/
def atNotLast : List Char → Bool
  | [] => false
  | [_] => false
  | c :: d :: rest => c == '@' || atNotLast (d :: rest)

/-- The non-whitespace run admits the split `\S+ @ \S+`. -/
def atInteriorOk : List Char → Bool
  | [] => false
  | _ :: tail => atNotLast tail

/-- Attempt of the bare-address regex anchored at the head of `s`: maximal
word-run, `@`, maximal word-run with an interior dot; the match is the
whole of both runs. -/
def matchEmailAt (s : List Char) : Option (List Char) :=
  match s.takeWhile isEmailChar with
  | [] => none
  | l0 :: loc =>
    match s.drop (l0 :: loc).length with
    | '@' :: rest =>
      let dom := rest.takeWhile isEmailChar
      if dotInteriorOk dom then some ((l0 :: loc) ++ '@' :: dom) else none
    | _ => none

/-- The leftmost match of the bare-address regex, if any. -/
def simpleEmailMatch : List Char → Option (List Char)
  | [] => none
  | c :: rest =>
    match matchEmailAt (c :: rest) with
    | some m => some m
    | none => simpleEmailMatch rest

def origSenderTok : List Char := "original-sender:".toList

/-- Attempt of `/original-sender:\s*([^\s]+@[^\s]+)/i` anchored at the head
of `s`. -/
def origSenderAt (s : List Char) : Option (List Char) :=
  match ciStrip origSenderTok s with
  | none => none
  | some rest =>
    let run := (rest.dropWhile jsIsSpace).takeWhile (fun c => !(jsIsSpace c))
    if atInteriorOk run then some run else none

/-- The leftmost match of the `original-sender:` regex, if any. -/
def origSenderMatch : List Char → Option (List Char)
  | [] => none
  | c :: rest =>
    match origSenderAt (c :: rest) with
    | some m => some m
    | none => origSenderMatch rest

def bounceTok : List Char := "bounce".toList
def mailerDaemonTok : List Char := "mailer-daemon".toList
def sentinelBounced : List Char := "system@bounced.mail".toList

/-- `extractSenderEmail` from `src/routes/webhook.js`. -/
def extractSenderEmail (emailFrom : List Char) : List Char :=
  if emailFrom = [] then []
  else
    match angleLazyMatch emailFrom with
    | some g => g
    | none =>
      match simpleEmailMatch emailFrom with
      | some g => g
      | none =>
        if containsSub bounceTok emailFrom || containsSub mailerDaemonTok emailFrom then
          match origSenderMatch emailFrom with
          | some g => g
          | none => sentinelBounced
        else emailFrom

/-! ## Subject cleaning (`cleanSubject` in `webhook.js`)

The seven prefix patterns are applied once each, in order, with
`String.prototype.replace` (non-global, all anchored with `^`), then the
four named HTML entities and the numeric entities are decoded (global
replaces, in order), whitespace runs are collapsed, the result is trimmed
and truncated to 97 characters plus an ellipsis when longer than 100. -/

def rePat : List Char := "re:".toList
def fwdPat : List Char := "fwd:".toList
def fwPat : List Char := "fw:".toList
def spamPat : List Char := "[spam]".toList
def bouncePat : List Char := "bounce:".toList
def autoPat : List Char := "auto".toList
def automaticPat : List Char := "automatic".toList
def replyPat : List Char := "reply:".toList

/-- `s.replace(/^pat\s*/i, '')` for a literal pattern `pat`. -/
def stripPatWs (pat : List Char) (s : List Char) : List Char :=
  match ciStrip pat s with
  | some rest => rest.dropWhile jsIsSpace
  | none => s

/-- `s.replace(/^pat/i, '')` for a literal pattern `pat`. -/
def stripPatNoWs (pat : List Char) (s : List Char) : List Char :=
  match ciStrip pat s with
  | some rest => rest
  | none => s

/-- Remainder after the LAST occurrence of `reply:` (case-insensitive) that
is reachable by the greedy `.*` (i.e. with no LineTerminator before it). -/
def lastReplySplit : List Char → Option (List Char)
  | [] => none
  | c :: rest =>
    match if isLineTerm c then none else lastReplySplit rest with
    | some r => some r
    | none => ciStrip replyPat (c :: rest)

/-- `s.replace(/^auto.*reply:\s*/i, '')`. -/
def autoReplyStrip (s : List Char) : List Char :=
  match ciStrip autoPat s with
  | none => s
  | some rest =>
    match lastReplySplit rest with
    | some r => r.dropWhile jsIsSpace
    | none => s

/-- `s.replace(/^automatic\s+reply:\s*/i, '')`. -/
def automaticReplyStrip (s : List Char) : List Char :=
  match ciStrip automaticPat s with
  | none => s
  | some rest =>
    if (rest.takeWhile jsIsSpace).isEmpty then s
    else
      match ciStrip replyPat (rest.dropWhile jsIsSpace) with
      | some r => r.dropWhile jsIsSpace
      | none => s

/-- The seven prefix-removal replaces of `cleanSubject`, in source order. -/
def stripSubjectTags (s : List Char) : List Char :=
  automaticReplyStrip (autoReplyStrip (stripPatNoWs bouncePat
    (stripPatWs spamPat (stripPatWs fwPat (stripPatWs fwdPat (stripPatWs rePat s))))))

/-- Scanner for `s.replace(pat, repl)` with a global literal pattern: on a
match the replacement is emitted and the `skip` counter drops the rest of
the matched occurrence (the head was already accounted for); otherwise the
scan advances one character.  The `pat ≠ []` guard is never exercised by
the source, whose patterns are all non-empty. -/
def replaceAllAux (pat repl : List Char) : Nat → List Char → List Char
  | _, [] => []
  | skip + 1, _ :: rest => replaceAllAux pat repl skip rest
  | 0, c :: rest =>
    if pat ≠ [] ∧ pat.isPrefixOf (c :: rest) then
      repl ++ replaceAllAux pat repl (pat.length - 1) rest
    else
      c :: replaceAllAux pat repl 0 rest

/-- `s.replace(pat, repl)` with a global literal pattern (scan left to
right, non-overlapping). -/
def replaceAllLit (pat repl : List Char) (s : List Char) : List Char :=
  replaceAllAux pat repl 0 s

def isDigitC (c : Char) : Bool := '0' ≤ c && c ≤ '9'

def digitsVal (ds : List Char) : Nat :=
  ds.foldl (fun a c => a * 10 + (c.toNat - 48)) 0

/-- `String.fromCharCode`: ToUint16 of the numeric value.  (The float
rounding JS applies to digit strings beyond 2^53 is not modelled; no code
path of the repository produces such entities.) -/
def jsFromCharCode (n : Nat) : Char := Char.ofNat (n % 65536)

/-- Scanner for `s.replace(/&#(\d+);/g, ...)`: at `&#` followed by digits
and `;` the decoded character is emitted and the `skip` counter drops the
digits and the semicolon; on a failed attempt at a `&` the scan resumes at
the following character, as the JS engine does. -/
def decodeNumAux : Nat → List Char → List Char
  | _, [] => []
  | skip + 1, _ :: rest => decodeNumAux skip rest
  | 0, '&' :: '#' :: rest2 =>
    let ds := rest2.takeWhile isDigitC
    if ds.isEmpty then '&' :: '#' :: decodeNumAux 0 rest2
    else
      match rest2.drop ds.length with
      | ';' :: _ => jsFromCharCode (digitsVal ds) :: decodeNumAux (ds.length + 1) rest2
      | _ => '&' :: '#' :: decodeNumAux 0 rest2
  | 0, c :: rest => c :: decodeNumAux 0 rest

/-- `s.replace(/&#(\d+);/g, (m, dec) => String.fromCharCode(dec))`. -/
def decodeNumEntities (s : List Char) : List Char :=
  decodeNumAux 0 s

def quotEnt : List Char := "&quot;".toList
def ampEnt : List Char := "&amp;".toList
def ltEnt : List Char := "&lt;".toList
def gtEnt : List Char := "&gt;".toList

/-- The five entity-decoding replaces of `cleanSubject`, in source order. -/
def decodeEntities (s : List Char) : List Char :=
  decodeNumEntities
    (replaceAllLit gtEnt [ '>' ]
      (replaceAllLit ltEnt [ '<' ]
        (replaceAllLit ampEnt [ '&' ]
          (replaceAllLit quotEnt [ '\"' ] s))))

/-- Scanner for `s.replace(/\s+/g, ' ')`: the flag records that the scan is
inside a whitespace run whose single `' '` has already been emitted. -/
def collapseAux : Bool → List Char → List Char
  | _, [] => []
  | inRun, c :: rest =>
    if jsIsSpace c then
      if inRun then collapseAux true rest else ' ' :: collapseAux true rest
    else c :: collapseAux false rest

/-- `s.replace(/\s+/g, ' ')`. -/
def collapseWs (s : List Char) : List Char :=
  collapseAux false s

def noSubject : List Char := "No Subject".toList
def ellipsisTail : List Char := "...".toList

/-- `cleanSubject` from `src/routes/webhook.js`. -/
def cleanSubject (subject : List Char) : List Char :=
  if subject = [] then noSubject
  else
    let c1 := stripSubjectTags subject
    let c2 := decodeEntities c1
    let c3 := jsTrim (collapseWs c2)
    let c4 := if 100 < c3.length then c3.take 97 ++ ellipsisTail else c3
    if c4 = [] then noSubject else c4

/-! ## DNS verification

`verifyDNSSettings` (domain routes file) and `DnsVerifier` (dnsVerifier.js).
A DNS lookup is modelled as an `Except DnsErr` value supplied by the
environment: `.error` is a rejected lookup (timeout, NXDOMAIN, ...). -/

inductive DnsErr where
  | timeout
  | nxdomain
deriving DecidableEq, Repr

structure MxRecord where
  exchange : List Char
  priority : Nat
deriving DecidableEq, Repr

/-- The DNS answers the environment would give for one verification call:
`resolveMx(domain)`, `resolveTxt(domain)`, `resolveCname('mail.' + domain)`
and `resolveTxt(selector + '._domainkey.' + domain)`. -/
structure DnsEnv where
  mx : Except DnsErr (List MxRecord)
  txt : Except DnsErr (List (List (List Char)))
  cname : Except DnsErr (List (List Char))
  dkimTxt : Except DnsErr (List (List (List Char)))

structure DnsChecks where
  mx : Bool
  spf : Bool
  cname : Bool
deriving DecidableEq, Repr

structure DnsVerification where
  isValid : Bool
  checks : DnsChecks
deriving DecidableEq, Repr

def mx1Host : List Char := "mx1.boomlify.com".toList
def mx2Host : List Char := "mx2.boomlify.com".toList
def spfMarker : List Char := "v=spf1".toList
def spfInclude : List Char := "include:_spf.boomlify.com".toList
def mailHost : List Char := "mail.boomlify.com".toList
def dkimMarker : List Char := "v=DKIM1".toList

/-- The MX predicate of `verifyDNSSettings`. -/
def mxRecordsOk (records : List MxRecord) : Bool :=
  records.any fun r => containsSub mx1Host r.exchange || containsSub mx2Host r.exchange

/-- The SPF predicate of `verifyDNSSettings`. -/
def spfRecordsOk (txts : List (List (List Char))) : Bool :=
  txts.any fun records =>
    records.any fun r => containsSub spfMarker r && containsSub spfInclude r

/-- The CNAME check of `verifyDNSSettings`: the callback turns a lookup
error into `false` inline, so this check never throws. -/
def cnameLookupOk (res : Except DnsErr (List (List Char))) : Bool :=
  match res with
  | .error _ => false
  | .ok addresses => addresses.any fun a => containsSub mailHost a

/-- `verifyDNSSettings` from the domain routes file: the `try` block awaits
the MX and TXT lookups, so a rejection of either jumps to the `catch`,
which reports every check `false`; the CNAME lookup is error-handled
inline. -/
def verifyDNSSettings (env : DnsEnv) : DnsVerification :=
  match env.mx with
  | .error _ => ⟨false, false, false, false⟩
  | .ok mxRecords =>
    let hasMxRecords := mxRecordsOk mxRecords
    match env.txt with
    | .error _ => ⟨false, false, false, false⟩
    | .ok txtRecords =>
      let hasSpf := spfRecordsOk txtRecords
      let hasCname := cnameLookupOk env.cname
      ⟨hasMxRecords && hasSpf && hasCname, hasMxRecords, hasSpf, hasCname⟩

/-- `DnsVerifier.verifyMxRecord`: the expected value `"10 mail." + domain`
is split into priority `10` and exchange `"mail." + domain`; its own
`try/catch` maps a lookup error to `false`. -/
def verifyMxRecord (res : Except DnsErr (List MxRecord)) (domain : List Char) : Bool :=
  match res with
  | .error _ => false
  | .ok records =>
    records.any fun r => r.exchange == "mail.".toList ++ domain && r.priority == 10

/-- `DnsVerifier.verifySpfRecord`: own `try/catch`, error means `false`. -/
def verifySpfRecord (res : Except DnsErr (List (List (List Char)))) : Bool :=
  match res with
  | .error _ => false
  | .ok records => records.any fun rs => rs.any fun txt => containsSub spfMarker txt

/-- `DnsVerifier.verifyDkimRecord`: own `try/catch`, error means `false`. -/
def verifyDkimRecord (res : Except DnsErr (List (List (List Char)))) : Bool :=
  match res with
  | .error _ => false
  | .ok records => records.any fun rs => rs.any fun txt => containsSub dkimMarker txt

structure VerifyAllResults where
  mx : Bool
  spf : Bool
  dkim : Bool
deriving DecidableEq, Repr

/-- `DnsVerifier.verifyAll`: runs the three checks and takes the
conjunction (`Object.values(results).every(r => r)`). -/
def verifyAll (env : DnsEnv) (domain : List Char) : Bool × VerifyAllResults :=
  let results : VerifyAllResults :=
    ⟨verifyMxRecord env.mx domain, verifySpfRecord env.txt, verifyDkimRecord env.dkimTxt⟩
  (results.mx && results.spf && results.dkim, results)

/-! ## The relational store

One record collects every table the modelled components touch.  The
`LEFT JOIN domain_forwards` of `getRoutingInfo` is modelled by carrying the
joined `forward_to` column on the `user_domains` row; opaque generated UUID
columns are not modelled. -/

structure PremiumEmailRow where
  id : Nat
  email : List Char
  active : Bool
  forwardTo : Option (List Char)
  userId : Nat
deriving DecidableEq, Repr

structure TempEmailRow where
  id : Nat
  email : List Char
  active : Bool
  userId : Option Nat
deriving DecidableEq, Repr

structure UserDomainRow where
  id : Nat
  userId : Nat
  domain : List Char
  isVerified : Bool
  status : List Char
  forwardTo : Option (List Char)
deriving DecidableEq, Repr

structure SystemDomainRow where
  id : Nat
  domain : List Char
deriving DecidableEq, Repr

structure StoredEmailRow where
  id : Nat
  mailboxId : Option Nat
  fromEmail : List Char
  fromName : List Char
  subject : List Char
  bodyHtml : List Char
  bodyText : List Char
  userId : Option Nat
deriving DecidableEq, Repr

structure AttachmentRow where
  emailId : Nat
  filename : List Char
  contentType : List Char
  size : Nat
  content : List Nat
deriving DecidableEq, Repr

structure DomainIssueRow where
  domainId : Nat
  issueType : List Char
deriving DecidableEq, Repr

structure DB where
  premiumEmails : List PremiumEmailRow
  tempEmails : List TempEmailRow
  userDomains : List UserDomainRow
  systemDomains : List SystemDomainRow
  premiumReceived : List StoredEmailRow
  premiumAttachments : List AttachmentRow
  receivedEmails : List StoredEmailRow
  emailAttachments : List AttachmentRow
  premiumAnalytics : Nat
  domainIssues : List DomainIssueRow
deriving DecidableEq, Repr

structure AttachmentData where
  filename : List Char
  contentType : List Char
  size : Nat
  content : List Nat
deriving DecidableEq, Repr

/-- The normalized message record handed to the persistence code. -/
structure EmailData where
  sender : List Char
  senderName : List Char
  subject : List Char
  bodyHtml : List Char
  bodyText : List Char
  attachments : List AttachmentData
deriving DecidableEq, Repr

/-! ## The webhook ingestion handler (`router.post('/email/incoming')`)

Failure injection is explicit: `attFail = some n` makes the insertion of
the `n`-th attachment row raise, `forwardFails` makes
`mailTransporter.sendMail` reject.  The generated UUID for the email row is
the `emailId` parameter. -/

/-- The recipient-cleaning step.  When the recipient contains `<` the code
dereferences `recipient.match(/<(.+)>/)[1]`; if the regex does not match,
the match is `null` and the dereference throws a `TypeError`, modelled as
`.error`. -/
def cleanRecipient (r : List Char) : Except Unit (List Char) :=
  if r.contains '<' then
    match angleGreedyMatch r with
    | some g => .ok g
    | none => .error ()
  else .ok (jsTrim r)

/-- `SELECT id, forward_to FROM premium_emails WHERE email = ? AND
expires_at > NOW()`, first row. -/
def premiumLookup (db : DB) (addr : List Char) : Option PremiumEmailRow :=
  db.premiumEmails.find? fun p => p.email == addr && p.active

/-- `SELECT id FROM temp_emails WHERE email = ? AND expires_at > NOW()`,
first row. -/
def tempLookup (db : DB) (addr : List Char) : Option TempEmailRow :=
  db.tempEmails.find? fun t => t.email == addr && t.active

/-- Builds the attachment rows a storing loop would insert; `.error` when
the injected failure index is hit.  `failAt` counts down as the loop
advances. -/
def buildAttachmentRows (emailId : Nat) :
    List AttachmentData → Option Nat → Except Unit (List AttachmentRow)
  | [], _ => .ok []
  | a :: rest, failAt =>
    if failAt = some 0 then .error ()
    else
      match buildAttachmentRows emailId rest (failAt.map (· - 1)) with
      | .ok rows =>
        .ok ({ emailId := emailId, filename := a.filename, contentType := a.contentType,
               size := a.size, content := a.content } :: rows)
      | .error e => .error e

/-- Observable steps of one webhook call, in execution order. -/
inductive Event where
  | beginTxn
  | insertEmailRow
  | insertAttachmentRows
  | forwardAttempt
  | forwardFailed
  | insertAnalyticsRow
  | commitTxn
  | rollbackTxn
deriving DecidableEq, Repr

/-- The email row staged by the premium branch of the webhook handler. -/
def mkPremiumRow (emailId : Nat) (p : PremiumEmailRow) (d : EmailData) : StoredEmailRow :=
  { id := emailId, mailboxId := some p.id, fromEmail := d.sender, fromName := d.senderName,
    subject := d.subject, bodyHtml := d.bodyHtml, bodyText := d.bodyText, userId := none }

/-- The email row staged by the temporary branch of the webhook handler. -/
def mkTempRow (emailId : Nat) (t : TempEmailRow) (d : EmailData) : StoredEmailRow :=
  { id := emailId, mailboxId := some t.id, fromEmail := d.sender, fromName := d.senderName,
    subject := d.subject, bodyHtml := d.bodyHtml, bodyText := d.bodyText, userId := none }

inductive WebhookResponse where
  | stored (emailId : Nat) (recipient : List Char)
  | recipientNotFound
  | internalError
deriving DecidableEq, Repr

/-- The `/email/incoming` handler of `src/routes/webhook.js`, from the
recipient-cleaning step on (parsing and sender/subject normalisation act on
the fields of `d` and cannot throw).  Returns the visible store after the
call, the HTTP-level response and the step trace. -/
def emailIncomingHandler (db : DB) (recipient : List Char) (d : EmailData)
    (emailId : Nat) (attFail : Option Nat) (forwardFails : Bool) :
    DB × WebhookResponse × List Event :=
  match cleanRecipient recipient with
  | .error _ => (db, .internalError, [])
  | .ok cr =>
    match premiumLookup db cr with
    | some p =>
      match buildAttachmentRows emailId d.attachments attFail with
      | .error _ =>
        (db, .internalError, [.beginTxn, .insertEmailRow, .insertAttachmentRows, .rollbackTxn])
      | .ok attRows =>
        let staged := { db with
          premiumReceived := db.premiumReceived ++ [mkPremiumRow emailId p d],
          premiumAttachments := db.premiumAttachments ++ attRows }
        match p.forwardTo with
        | none =>
          (staged, .stored emailId cr,
           [.beginTxn, .insertEmailRow, .insertAttachmentRows, .commitTxn])
        | some _ =>
          if forwardFails then
            (staged, .stored emailId cr,
             [.beginTxn, .insertEmailRow, .insertAttachmentRows, .forwardAttempt,
              .forwardFailed, .commitTxn])
          else
            ({ staged with premiumAnalytics := staged.premiumAnalytics + 1 },
             .stored emailId cr,
             [.beginTxn, .insertEmailRow, .insertAttachmentRows, .forwardAttempt,
              .insertAnalyticsRow, .commitTxn])
    | none =>
      match tempLookup db cr with
      | none => (db, .recipientNotFound, [])
      | some t =>
        match buildAttachmentRows emailId d.attachments attFail with
        | .error _ =>
          (db, .internalError, [.beginTxn, .insertEmailRow, .insertAttachmentRows, .rollbackTxn])
        | .ok attRows =>
          ({ db with
             receivedEmails := db.receivedEmails ++ [mkTempRow emailId t d],
             emailAttachments := db.emailAttachments ++ attRows },
           .stored emailId cr,
           [.beginTxn, .insertEmailRow, .insertAttachmentRows, .commitTxn])

/-- The reading of C1 under refutation: every forward attempt happens only
after the transaction that persists the message has committed. -/
def forwardOnlyAfterPersist (tr : List Event) : Prop :=
  ∀ i, tr.get? i = some Event.forwardAttempt →
    ∃ j, j < i ∧ tr.get? j = some Event.commitTxn

/-! ## `EmailRouter` (`src/services/emailRouter.js`) -/

/-- `recipientEmail.split('@')[1]`: the segment between the first and the
second `@`; `none` when the address has no `@` at all (the JS value is then
`undefined` and every equality lookup on it misses). -/
def domainOfAddr (a : List Char) : Option (List Char) :=
  match a.dropWhile (fun c => c != '@') with
  | '@' :: rest => some (rest.takeWhile (fun c => c != '@'))
  | _ => none

inductive RoutingInfo where
  | custom (forwardTo : Option (List Char)) (userId : Nat)
  | system (domainId : Nat)
deriving DecidableEq, Repr

/-- `EmailRouter.getRoutingInfo`: verified custom domain first (with the
joined `forward_to`), then system domain, else `null`. -/
def getRoutingInfo (db : DB) (recipientEmail : List Char) : Option RoutingInfo :=
  match domainOfAddr recipientEmail with
  | none => none
  | some dom =>
    match db.userDomains.find? (fun ud => ud.domain == dom && ud.isVerified) with
    | some ud => some (.custom ud.forwardTo ud.userId)
    | none =>
      match db.systemDomains.find? (fun sd => sd.domain == dom) with
      | some sd => some (.system sd.id)
      | none => none

/-- `SELECT * FROM temp_emails WHERE email = ?` (no expiry filter), first
row — the lookup used by `EmailRouter.handleIncomingEmail`. -/
def tempLookupRouter (db : DB) (addr : List Char) : Option TempEmailRow :=
  db.tempEmails.find? fun t => t.email == addr

/-- The row inserted by `EmailRouter.insertEmail` (the source reads
`emailData.tempEmailId`, which the callers never set, so the column is
`NULL`; the generated UUID key is `emailId`). -/
def mkRouterRow (emailId : Nat) (d : EmailData) (userId : Option Nat) : StoredEmailRow :=
  { id := emailId, mailboxId := none, fromEmail := d.sender, fromName := d.senderName,
    subject := d.subject, bodyHtml := d.bodyHtml, bodyText := d.bodyText, userId := userId }

/-- `EmailRouter.storeEmail`: one transaction inserting the email row and
every attachment row into `received_emails` / `email_attachments`; any
failure rolls the whole unit back.  Returns the visible store and the
error, if one was thrown. -/
def storeEmailRun (db : DB) (d : EmailData) (userId : Option Nat) (emailId : Nat)
    (attFail : Option Nat) : DB × Option (List Char) :=
  match buildAttachmentRows emailId d.attachments attFail with
  | .error _ => (db, some "Attachment insert failed".toList)
  | .ok rows =>
    ({ db with
        receivedEmails := db.receivedEmails ++ [mkRouterRow emailId d userId],
        emailAttachments := db.emailAttachments ++ rows }, none)

def invalidRecipientMsg : List Char := "Invalid recipient domain".toList
def tempNotFoundMsg : List Char := "Temporary email not found".toList
def forwardFailedMsg : List Char := "Failed to forward email".toList

/-- `EmailRouter.handleIncomingEmail` from `src/services/emailRouter.js`:
resolve routing (throw if none), require a `temp_emails` row (throw if
none), forward first when the custom route carries a forward target (a
rejected send is rethrown), then store.  Returns the visible store and the
error, if one was thrown. -/
def handleIncomingEmail (db : DB) (recipientEmail : List Char) (d : EmailData)
    (emailId : Nat) (forwardFails : Bool) (attFail : Option Nat) :
    DB × Option (List Char) :=
  match getRoutingInfo db recipientEmail with
  | none => (db, some invalidRecipientMsg)
  | some routing =>
    match tempLookupRouter db recipientEmail with
    | none => (db, some tempNotFoundMsg)
    | some _ =>
      match routing with
      | .custom (some _) uid =>
        if forwardFails then (db, some forwardFailedMsg)
        else storeEmailRun db d (some uid) emailId attFail
      | .custom none uid => storeEmailRun db d (some uid) emailId attFail
      | .system _ => storeEmailRun db d none emailId attFail

/-! ## Recipient resolution as a routing decision (for C3) -/

inductive RoutingDecision where
  | noRoute
  | premiumRoute (mailboxId : Nat) (forwardTo : Option (List Char))
  | customRoute (forwardTo : Option (List Char)) (userId : Nat)
  | systemRoute (domainId : Nat)
  | tempRoute (mailboxId : Nat)
deriving DecidableEq, Repr

/-- The recipient classification actually performed by the webhook handler:
premium exact match with unexpired lease, else temporary exact match with
unexpired lease, else no route.  Custom- and system-domain tables are never
consulted. -/
def webhookResolve (db : DB) (addr : List Char) : RoutingDecision :=
  match premiumLookup db addr with
  | some p => .premiumRoute p.id p.forwardTo
  | none =>
    match tempLookup db addr with
    | some t => .tempRoute t.id
    | none => .noRoute

/-- The resolution order asserted by the claim (stated by the spec), written
out for comparison with the source's resolvers: Premium exact match →
verified CustomDomain → System domain → Temporary exact match, first match
wins. -/
def claimedResolve (db : DB) (addr : List Char) : RoutingDecision :=
  match premiumLookup db addr with
  | some p => .premiumRoute p.id p.forwardTo
  | none =>
    match (domainOfAddr addr).bind
        (fun dom => db.userDomains.find? fun ud => ud.domain == dom && ud.isVerified) with
    | some ud => .customRoute ud.forwardTo ud.userId
    | none =>
      match (domainOfAddr addr).bind
          (fun dom => db.systemDomains.find? fun sd => sd.domain == dom) with
      | some sd => .systemRoute sd.id
      | none =>
        match tempLookup db addr with
        | some t => .tempRoute t.id
        | none => .noRoute

/-! ## Domain monitor (`src/services/domainMonitor.js`) -/

def inactiveStatus : List Char := "inactive".toList
def activeStatus : List Char := "active".toList
def dnsIssueType : List Char := "DNS_VERIFICATION_FAILED".toList

/-- `UPDATE user_domains SET status = ? WHERE id = ?`. -/
def setDomainStatus (rows : List UserDomainRow) (domId : Nat) (st : List Char) :
    List UserDomainRow :=
  rows.map fun r => if r.id = domId then { r with status := st } else r

/-- One iteration of the monitor loop for the snapshot row `d`: on a failed
re-check write status `inactive` and append an issue row; on success
reactivate only a row whose snapshot status was `inactive`. -/
def monitorStep (check : List Char → Bool) (db : DB) (d : UserDomainRow) : DB :=
  if !(check d.domain) then
    { db with
        userDomains := setDomainStatus db.userDomains d.id inactiveStatus,
        domainIssues := db.domainIssues ++ [{ domainId := d.id, issueType := dnsIssueType }] }
  else if d.status = inactiveStatus then
    { db with userDomains := setDomainStatus db.userDomains d.id activeStatus }
  else db

/-- `DomainMonitor.monitorDomains`: select the snapshot
`SELECT * FROM user_domains WHERE is_verified = 1`, then run the loop.
`check` is the aggregate `DnsVerifier.verifyAll(...).success` outcome per
domain name. -/
def monitorDomains (db : DB) (check : List Char → Bool) : DB :=
  (db.userDomains.filter fun r => r.isVerified).foldl (monitorStep check) db

/-- The per-row projection the monitor must not touch: everything except
`status`. -/
def domainFrame (r : UserDomainRow) : Nat × Nat × List Char × Bool × Option (List Char) :=
  (r.id, r.userId, r.domain, r.isVerified, r.forwardTo)

/-! ## Whitespace normal form (used to settle subject-cleaning idempotence) -/

/-- Every whitespace character of the list is a plain space. -/
def okSpaceChars (l : List Char) : Prop := ∀ c ∈ l, jsIsSpace c = true → c = ' '

/-- No two adjacent whitespace characters. -/
def noAdjSpaces (l : List Char) : Prop :=
  List.Chain' (fun a b => ¬(jsIsSpace a = true ∧ jsIsSpace b = true)) l

/-- The shape `collapseWs` guarantees: only plain single spaces. -/
def spacedShape (l : List Char) : Prop := okSpaceChars l ∧ noAdjSpaces l

def headNoWs (l : List Char) : Bool :=
  match l.head? with
  | some c => !(jsIsSpace c)
  | none => true

def lastNoWs (l : List Char) : Bool :=
  match l.getLast? with
  | some c => !(jsIsSpace c)
  | none => true

/-- The shape `jsTrim ∘ collapseWs` guarantees, on which both are the
identity. -/
def wsNormal (l : List Char) : Prop :=
  spacedShape l ∧ headNoWs l = true ∧ lastNoWs l = true

/-! ## Concrete inputs used by counterexamples and witnesses -/

def emptyDB : DB :=
  { premiumEmails := [], tempEmails := [], userDomains := [], systemDomains := [],
    premiumReceived := [], premiumAttachments := [], receivedEmails := [],
    emailAttachments := [], premiumAnalytics := 0, domainIssues := [] }

def sampleAttachment : AttachmentData :=
  { filename := "a.txt".toList, contentType := "text/plain".toList, size := 3,
    content := [1, 2, 3] }

def sampleEmailData : EmailData :=
  { sender := "alice@example.com".toList, senderName := "Alice".toList,
    subject := "Hi".toList, bodyHtml := [], bodyText := "hello".toList, attachments := [] }

def sampleEmailDataAtt : EmailData :=
  { sampleEmailData with attachments := [sampleAttachment] }

def fwdTarget : List Char := "ext@example.com".toList
def premiumAddr : List Char := "user@premium.test".toList

/-- A store holding one active premium mailbox with a forward target. -/
def dbPremiumFwd : DB :=
  { emptyDB with
      premiumEmails :=
        [{ id := 1, email := premiumAddr, active := true, forwardTo := some fwdTarget,
           userId := 7 }] }

def customAddr : List Char := "user@customdomain.test".toList

/-- A store holding one verified custom domain with a forward target and
nothing else — in particular no premium and no temporary mailbox rows. -/
def dbCustomOnly : DB :=
  { emptyDB with
      userDomains :=
        [{ id := 2, userId := 7, domain := "customdomain.test".toList, isVerified := true,
           status := activeStatus, forwardTo := some fwdTarget }] }

/-- A recipient field with a `<` but no `>`. -/
def badRecipient : List Char := "user<premium.test".toList

def spfGoodTxt : List Char := "v=spf1 include:_spf.boomlify.com".toList

/-- A verification call where the MX lookup times out while the TXT and
CNAME answers would pass their checks. -/
def envMxTimeout : DnsEnv :=
  { mx := .error .timeout, txt := .ok [[spfGoodTxt]], cname := .ok [mailHost],
    dkimTxt := .ok [] }

def ck6Input : List Char := "mailer-daemon@example.com".toList
def wit6Input : List Char := "bounce notice".toList
def ck7Input : List Char := "Fwd: Re: Hi".toList
def wit7Input : List Char := "Hello World".toList

/-- The frame relation the monitor sweep maintains between the store before
and after any number of loop iterations: on `user_domains` everything but
`status` is untouched, `domain_issues` only grows at the end, and every
other table is untouched. -/
def monitorFrameInv (db0 db1 : DB) : Prop :=
  db1.userDomains.map domainFrame = db0.userDomains.map domainFrame ∧
  (∃ newIssues, db1.domainIssues = db0.domainIssues ++ newIssues) ∧
  db1.premiumEmails = db0.premiumEmails ∧
  db1.tempEmails = db0.tempEmails ∧
  db1.systemDomains = db0.systemDomains ∧
  db1.premiumReceived = db0.premiumReceived ∧
  db1.premiumAttachments = db0.premiumAttachments ∧
  db1.receivedEmails = db0.receivedEmails ∧
  db1.emailAttachments = db0.emailAttachments ∧
  db1.premiumAnalytics = db0.premiumAnalytics

/-- Executable check for "no two adjacent whitespace characters", used to
discharge `noAdjSpaces` on concrete lists. -/
def noAdjSpacesB : List Char → Bool
  | [] => true
  | [_] => true
  | a :: b :: rest => !(jsIsSpace a && jsIsSpace b) && noAdjSpacesB (b :: rest)

/-! # Theorems -/

/-! ## C4 / C5 — domain verification -/

/-- C4: for every domain verification invocation, the aggregate validity
result is true if and only if every required individual DNS check is true —
a logical AND with no partial credit.  This holds for `verifyDNSSettings`
(checks MX, SPF, CNAME) and for `DnsVerifier.verifyAll` (checks MX, SPF,
DKIM). -/
theorem dns_aggregate_iff_all_checks :
    (∀ env : DnsEnv,
      (verifyDNSSettings env).isValid =
        ((verifyDNSSettings env).checks.mx && (verifyDNSSettings env).checks.spf &&
          (verifyDNSSettings env).checks.cname)) ∧
    (∀ (env : DnsEnv) (domain : List Char),
      (verifyAll env domain).1 =
        ((verifyAll env domain).2.mx && (verifyAll env domain).2.spf &&
          (verifyAll env domain).2.dkim)) := by
  constructor
  · intro env
    cases hmx : env.mx with
    | error e => simp [verifyDNSSettings, hmx]
    | ok recs =>
      cases htxt : env.txt with
      | error e => simp [verifyDNSSettings, hmx, htxt]
      | ok txts => simp [verifyDNSSettings, hmx, htxt]
  · intro env domain
    rfl

/-- C5 counterexample: in `verifyDNSSettings`, when the MX lookup fails the
remaining checks are *not* evaluated: with TXT and CNAME answers that would
pass (their evaluations are `true`), every check is reported `false`. -/
theorem dns_remaining_checks_counterexample :
    (verifyDNSSettings envMxTimeout).checks = ⟨false, false, false⟩ ∧
    spfRecordsOk [[spfGoodTxt]] = true ∧
    cnameLookupOk envMxTimeout.cname = true := by
  decide

/-- C5 amended: a failed DNS lookup is never a fatal error and the caller
always receives a complete per-check map plus an aggregate.  In
`DnsVerifier.verifyAll` each lookup failure fails only its own check, the
others still being evaluated on their own answers; in `verifyDNSSettings`
an MX or TXT lookup failure short-circuits — every check is reported
`false` without the remaining ones being evaluated — and only a CNAME
lookup failure is isolated to its own check. -/
theorem dns_lookup_failure_handling :
    (∀ (env : DnsEnv) (domain : List Char),
      (verifyAll env domain).2 =
        ⟨verifyMxRecord env.mx domain, verifySpfRecord env.txt,
          verifyDkimRecord env.dkimTxt⟩) ∧
    (∀ env : DnsEnv, ((∃ e, env.mx = .error e) ∨ (∃ e, env.txt = .error e)) →
      verifyDNSSettings env = ⟨false, ⟨false, false, false⟩⟩) ∧
    (∀ (env : DnsEnv) (ms : List MxRecord) (ts : List (List (List Char))),
      env.mx = .ok ms → env.txt = .ok ts →
      verifyDNSSettings env =
        ⟨mxRecordsOk ms && spfRecordsOk ts && cnameLookupOk env.cname,
          ⟨mxRecordsOk ms, spfRecordsOk ts, cnameLookupOk env.cname⟩⟩) := by
  refine ⟨fun env domain => rfl, ?_, ?_⟩
  · rintro env (⟨e, he⟩ | ⟨e, he⟩)
    · simp [verifyDNSSettings, he]
    · cases hmx : env.mx with
      | error e2 => simp [verifyDNSSettings, hmx]
      | ok recs => simp [verifyDNSSettings, hmx, he]
  · intro env ms ts hmx htxt
    simp [verifyDNSSettings, hmx, htxt]

/-- Witness for `dns_lookup_failure_handling`: the MX-timeout environment
takes the short-circuit branch. -/
theorem dns_lookup_failure_handling_witness :
    verifyDNSSettings envMxTimeout = ⟨false, ⟨false, false, false⟩⟩ :=
  dns_lookup_failure_handling.2.1 envMxTimeout (Or.inl ⟨DnsErr.timeout, rfl⟩)

/-! ## C6 — bounce sender sentinel -/

/-- C6 counterexample: `"mailer-daemon@example.com"` contains a
mailer-daemon marker and no `original-sender:` token, yet extraction
returns the address matched by the bare-address regex, not the sentinel. -/
theorem extractSenderEmail_bounce_counterexample :
    containsSub mailerDaemonTok ck6Input = true ∧
    containsSub origSenderTok ck6Input = false ∧
    origSenderMatch ck6Input = none ∧
    extractSenderEmail ck6Input = ck6Input ∧
    extractSenderEmail ck6Input ≠ sentinelBounced := by
  decide

/-- C6 amended: for every sender string that contains a bounce or
mailer-daemon marker, extraction returns the sentinel
`system@bounced.mail` provided no angle-bracketed address and no bare
RFC-5322-shaped address matched first and no `original-sender:` token is
extractable — the two earlier precedence steps of the source are genuine
exceptions to the claim as stated. -/
theorem extractSenderEmail_bounce_sentinel (s : List Char)
    (hmark : (containsSub bounceTok s || containsSub mailerDaemonTok s) = true)
    (hangle : angleLazyMatch s = none)
    (hsimple : simpleEmailMatch s = none)
    (horig : origSenderMatch s = none) :
    extractSenderEmail s = sentinelBounced := by
  have hne : s ≠ [] := by
    intro h
    subst h
    simp [containsSub, bounceTok, mailerDaemonTok, List.isEmpty] at hmark
  simp only [extractSenderEmail, if_neg hne, hangle, hsimple, hmark, if_pos, horig]

/-- Witness for `extractSenderEmail_bounce_sentinel` at
`"bounce notice"`. -/
theorem extractSenderEmail_bounce_sentinel_witness :
    (containsSub bounceTok wit6Input || containsSub mailerDaemonTok wit6Input) = true ∧
    extractSenderEmail wit6Input = sentinelBounced :=
  ⟨by decide,
    extractSenderEmail_bounce_sentinel wit6Input (by decide) (by decide) (by decide)
      (by decide)⟩

/-! ## C8 — recipient with `<` but no `>` -/

theorem lastGtSplit_eq_none {l : List Char} (h : ('>' : Char) ∉ l) :
    lastGtSplit l = none := by
  induction l with
  | nil => rfl
  | cons c rest ih =>
    have hc : ¬(c = '>') := fun hc => h (hc ▸ List.mem_cons_self c rest)
    have hr : ('>' : Char) ∉ rest := fun hm => h (List.mem_cons_of_mem _ hm)
    simp [lastGtSplit, ih hr, hc]

theorem angleGreedyAt_eq_none {rest : List Char} (h : ('>' : Char) ∉ rest) :
    angleGreedyAt rest = none := by
  unfold angleGreedyAt
  cases htw : rest.takeWhile (fun c => !(isLineTerm c)) with
  | nil => rfl
  | cons c0 tail =>
    have htail : ('>' : Char) ∉ tail := by
      intro hm
      have hpre : c0 :: tail <+: rest := htw ▸ List.takeWhile_prefix _
      exact h (hpre.sublist.mem (List.mem_cons_of_mem _ hm))
    simp [lastGtSplit_eq_none htail]

theorem angleGreedyMatch_eq_none {r : List Char} (h : ('>' : Char) ∉ r) :
    angleGreedyMatch r = none := by
  induction r with
  | nil => rfl
  | cons c rest ih =>
    have hr : ('>' : Char) ∉ rest := fun hm => h (List.mem_cons_of_mem _ hm)
    by_cases hc : c = '<'
    · simp [angleGreedyMatch, hc, angleGreedyAt_eq_none hr, ih hr]
    · simp [angleGreedyMatch, hc, ih hr]

/-- C8: a recipient field containing `<` with no `>` makes the
recipient-cleaning regex match `null`; dereferencing it throws, so the
whole ingestion request ends in the 500-equivalent internal-error response
— not not-found, not success — and nothing is looked up or stored. -/
theorem webhook_unmatched_angle_500 (db : DB) (r : List Char) (d : EmailData)
    (emailId : Nat) (attFail : Option Nat) (forwardFails : Bool)
    (hlt : ('<' : Char) ∈ r) (hgt : ('>' : Char) ∉ r) :
    cleanRecipient r = .error () ∧
    emailIncomingHandler db r d emailId attFail forwardFails =
      (db, .internalError, []) := by
  have hcontains : r.contains '<' = true := by
    simpa [List.contains] using List.elem_iff.mpr hlt
  have hclean : cleanRecipient r = .error () := by
    simp [cleanRecipient, hcontains, hlt, angleGreedyMatch_eq_none hgt]
  exact ⟨hclean, by simp [emailIncomingHandler, hclean]⟩

/-- Witness for `webhook_unmatched_angle_500` at `"user<premium.test"`. -/
theorem webhook_unmatched_angle_500_witness :
    ('<' : Char) ∈ badRecipient ∧ ('>' : Char) ∉ badRecipient ∧
    emailIncomingHandler emptyDB badRecipient sampleEmailData 5 none false =
      (emptyDB, .internalError, []) :=
  ⟨by decide, by decide,
    (webhook_unmatched_angle_500 emptyDB badRecipient sampleEmailData 5 none false
      (by decide) (by decide)).2⟩

/-! ## C9 — custom-domain routing still requires a temp_emails row -/

/-- C9: `EmailRouter.handleIncomingEmail` throws and stores nothing for any
recipient without a `temp_emails` row; whenever routing resolved (in
particular to a verified custom domain with a forward target) the thrown
error is `'Temporary email not found'`. -/
theorem router_requires_temp_row (db : DB) (r : List Char) (d : EmailData)
    (emailId : Nat) (forwardFails : Bool) (attFail : Option Nat)
    (h : tempLookupRouter db r = none) :
    (handleIncomingEmail db r d emailId forwardFails attFail).1 = db ∧
    (handleIncomingEmail db r d emailId forwardFails attFail).2.isSome = true ∧
    (getRoutingInfo db r ≠ none →
      (handleIncomingEmail db r d emailId forwardFails attFail).2 =
        some tempNotFoundMsg) := by
  cases hroute : getRoutingInfo db r with
  | none => simp [handleIncomingEmail, hroute]
  | some ri => simp [handleIncomingEmail, hroute, h]

/-- Witness for `router_requires_temp_row`: a verified custom domain with a
forward target and an empty `temp_emails` table. -/
theorem router_requires_temp_row_witness :
    tempLookupRouter dbCustomOnly customAddr = none ∧
    getRoutingInfo dbCustomOnly customAddr = some (.custom (some fwdTarget) 7) ∧
    (handleIncomingEmail dbCustomOnly customAddr sampleEmailData 5 false none).1 =
      dbCustomOnly ∧
    (handleIncomingEmail dbCustomOnly customAddr sampleEmailData 5 false none).2 =
      some tempNotFoundMsg := by
  refine ⟨by decide, by decide, ?_, ?_⟩
  · exact (router_requires_temp_row dbCustomOnly customAddr sampleEmailData 5 false none
      (by decide)).1
  · exact (router_requires_temp_row dbCustomOnly customAddr sampleEmailData 5 false none
      (by decide)).2.2 (by decide)

/-! ## C2 — persistence atomicity -/

theorem buildAttachmentRows_fails (atts : List AttachmentData) :
    ∀ (n emailId : Nat), n < atts.length →
      buildAttachmentRows emailId atts (some n) = .error () := by
  induction atts with
  | nil => intro n emailId h; simp at h
  | cons a rest ih =>
    intro n emailId h
    cases n with
    | zero => simp [buildAttachmentRows]
    | succ m =>
      have hm : m < rest.length := by
        simp only [List.length_cons] at h
        omega
      simp [buildAttachmentRows, Option.map, ih m emailId hm]

theorem buildAttachmentRows_none (emailId : Nat) (atts : List AttachmentData) :
    buildAttachmentRows emailId atts none =
      .ok (atts.map fun a =>
        { emailId := emailId, filename := a.filename, contentType := a.contentType,
          size := a.size, content := a.content }) := by
  induction atts with
  | nil => rfl
  | cons a rest ih => simp [buildAttachmentRows, Option.map, ih]

/-- C2: if insertion of the `n`-th attachment (any `n` below the attachment
count) fails, the whole transactional unit rolls back: the visible store is
unchanged — zero email rows and zero attachment rows for the message — both
for `EmailRouter.storeEmail` (which also rethrows) and for the webhook
handler (which answers with the internal-error response whenever a branch
that stores was taken). -/
theorem persistence_atomic (db : DB) (r : List Char) (d : EmailData)
    (emailId : Nat) (n : Nat) (uid : Option Nat) (forwardFails : Bool)
    (h : n < d.attachments.length) :
    (storeEmailRun db d uid emailId (some n)).1 = db ∧
    (storeEmailRun db d uid emailId (some n)).2.isSome = true ∧
    (emailIncomingHandler db r d emailId (some n) forwardFails).1 = db ∧
    (∀ cr, cleanRecipient r = .ok cr →
      (premiumLookup db cr).isSome = true ∨ (tempLookup db cr).isSome = true →
      (emailIncomingHandler db r d emailId (some n) forwardFails).2.1 =
        .internalError) := by
  have hb := buildAttachmentRows_fails d.attachments n emailId h
  refine ⟨by simp [storeEmailRun, hb], by simp [storeEmailRun, hb], ?_, ?_⟩
  · cases hcr : cleanRecipient r with
    | error e => simp [emailIncomingHandler, hcr]
    | ok cr =>
      cases hp : premiumLookup db cr with
      | some p => simp [emailIncomingHandler, hcr, hp, hb]
      | none =>
        cases ht : tempLookup db cr with
        | none => simp [emailIncomingHandler, hcr, hp, ht]
        | some t => simp [emailIncomingHandler, hcr, hp, ht, hb]
  · intro cr hcr hsome
    cases hp : premiumLookup db cr with
    | some p => simp [emailIncomingHandler, hcr, hp, hb]
    | none =>
      cases ht : tempLookup db cr with
      | none => simp [hp, ht] at hsome
      | some t => simp [emailIncomingHandler, hcr, hp, ht, hb]

/-- Witness for `persistence_atomic`: one attachment, failure at index 0,
against the premium store. -/
theorem persistence_atomic_witness :
    0 < sampleEmailDataAtt.attachments.length ∧
    (storeEmailRun emptyDB sampleEmailDataAtt none 5 (some 0)).1 = emptyDB ∧
    (emailIncomingHandler dbPremiumFwd premiumAddr sampleEmailDataAtt 5 (some 0) false).1 =
      dbPremiumFwd ∧
    (emailIncomingHandler dbPremiumFwd premiumAddr sampleEmailDataAtt 5 (some 0) false).2.1 =
      .internalError :=
  ⟨by decide,
    (persistence_atomic emptyDB premiumAddr sampleEmailDataAtt 5 0 none false
      (by decide)).1,
    (persistence_atomic dbPremiumFwd premiumAddr sampleEmailDataAtt 5 0 none false
      (by decide)).2.2.1,
    (persistence_atomic dbPremiumFwd premiumAddr sampleEmailDataAtt 5 0 none false
      (by decide)).2.2.2 premiumAddr rfl (Or.inl (by decide))⟩

/-! ## C1 — forwarding versus persistence -/

/-- C1 counterexample: on a premium recipient with a forward target, the
webhook handler attempts the forward *inside* the open transaction — no
commit event precedes the forward attempt in the execution trace — so the
forward is not attempted "only after the message and its attachments have
been persisted (committed)". -/
theorem forward_before_commit_counterexample :
    ¬ forwardOnlyAfterPersist
        (emailIncomingHandler dbPremiumFwd premiumAddr sampleEmailData 5 none true).2.2 := by
  intro hp
  have htr : (emailIncomingHandler dbPremiumFwd premiumAddr sampleEmailData 5 none true).2.2 =
      [.beginTxn, .insertEmailRow, .insertAttachmentRows, .forwardAttempt,
       .forwardFailed, .commitTxn] := by
    decide
  obtain ⟨j, hj, hc⟩ := hp 3 (by rw [htr]; rfl)
  rw [htr] at hc
  rcases j with _ | _ | _ | j
  · exact absurd hc (by decide)
  · exact absurd hc (by decide)
  · exact absurd hc (by decide)
  · omega

/-- C1 amended: in the webhook handler, for every premium recipient whose
row carries a forward target, the forward is attempted after the email and
attachment rows have been inserted but before the transaction commits; a
forwarding failure is caught — the storage still commits unchanged and the
response still acknowledges the stored message — while on a successful
forward an analytics row is additionally written before the commit. -/
theorem webhook_forward_between_insert_and_commit (db : DB) (r : List Char)
    (d : EmailData) (emailId : Nat) (forwardFails : Bool) (cr : List Char)
    (p : PremiumEmailRow) (f : List Char)
    (hcr : cleanRecipient r = .ok cr)
    (hp : premiumLookup db cr = some p)
    (hf : p.forwardTo = some f) :
    (emailIncomingHandler db r d emailId none forwardFails).2.2 =
      [.beginTxn, .insertEmailRow, .insertAttachmentRows, .forwardAttempt] ++
        (if forwardFails then [.forwardFailed] else [.insertAnalyticsRow]) ++
        [.commitTxn] ∧
    (emailIncomingHandler db r d emailId none forwardFails).2.1 =
      .stored emailId cr ∧
    (emailIncomingHandler db r d emailId none forwardFails).1.premiumReceived =
      db.premiumReceived ++ [mkPremiumRow emailId p d] := by
  cases forwardFails <;>
    simp [emailIncomingHandler, hcr, hp, hf, buildAttachmentRows_none]

/-- Witness for `webhook_forward_between_insert_and_commit`: the premium
store with a forward target and a failing forward. -/
theorem webhook_forward_between_insert_and_commit_witness :
    premiumLookup dbPremiumFwd premiumAddr =
      some { id := 1, email := premiumAddr, active := true,
             forwardTo := some fwdTarget, userId := 7 } ∧
    (emailIncomingHandler dbPremiumFwd premiumAddr sampleEmailData 5 none true).2.2 =
      [.beginTxn, .insertEmailRow, .insertAttachmentRows, .forwardAttempt] ++
        [.forwardFailed] ++ [.commitTxn] ∧
    (emailIncomingHandler dbPremiumFwd premiumAddr sampleEmailData 5 none true).2.1 =
      .stored 5 premiumAddr ∧
    (emailIncomingHandler dbPremiumFwd premiumAddr sampleEmailData 5 none true).1.premiumReceived =
      dbPremiumFwd.premiumReceived ++
        [mkPremiumRow 5
          { id := 1, email := premiumAddr, active := true,
            forwardTo := some fwdTarget, userId := 7 } sampleEmailData] := by
  have hmain := webhook_forward_between_insert_and_commit dbPremiumFwd premiumAddr
    sampleEmailData 5 true premiumAddr
    { id := 1, email := premiumAddr, active := true,
      forwardTo := some fwdTarget, userId := 7 } fwdTarget rfl (by decide) rfl
  exact ⟨by decide, hmain.1, hmain.2.1, hmain.2.2⟩

/-! ## C3 — recipient resolution order -/

/-- C3 counterexample: for an address whose domain is a verified custom
domain with a forward target but which has no premium and no temporary
mailbox row, the claimed priority order resolves to the custom-domain
route, while the webhook pipeline resolves to no route and answers
not-found. -/
theorem resolution_order_counterexample :
    claimedResolve dbCustomOnly customAddr = .customRoute (some fwdTarget) 7 ∧
    webhookResolve dbCustomOnly customAddr = .noRoute ∧
    (emailIncomingHandler dbCustomOnly customAddr sampleEmailData 5 none false).2.1 =
      .recipientNotFound := by
  decide

/-- C3 amended: resolution in the source is split over two resolvers, with
no single four-level priority.  The webhook handler evaluates Premium
mailbox (exact match, non-expired) → Temporary mailbox (exact match,
non-expired) → no route, and never consults the custom- or system-domain
tables; `EmailRouter.getRoutingInfo` evaluates verified CustomDomain →
System domain → none, and never consults mailbox tables.  In particular an
address that matches both a Premium mailbox and a System-domain record
resolves, in the webhook pipeline, to the Premium route. -/
theorem resolution_order_in_source :
    (∀ (db : DB) (a : List Char) (p : PremiumEmailRow),
      premiumLookup db a = some p →
        webhookResolve db a = .premiumRoute p.id p.forwardTo) ∧
    (∀ (db : DB) (a : List Char) (t : TempEmailRow),
      premiumLookup db a = none → tempLookup db a = some t →
        webhookResolve db a = .tempRoute t.id) ∧
    (∀ (db : DB) (a : List Char),
      premiumLookup db a = none → tempLookup db a = none →
        webhookResolve db a = .noRoute) ∧
    (∀ (db : DB) (a : List Char) (cd : List UserDomainRow) (sd : List SystemDomainRow),
      webhookResolve { db with userDomains := cd, systemDomains := sd } a =
        webhookResolve db a) ∧
    (∀ (db : DB) (a dom : List Char) (ud : UserDomainRow),
      domainOfAddr a = some dom →
      db.userDomains.find? (fun u => u.domain == dom && u.isVerified) = some ud →
        getRoutingInfo db a = some (.custom ud.forwardTo ud.userId)) ∧
    (∀ (db : DB) (a dom : List Char) (sd : SystemDomainRow),
      domainOfAddr a = some dom →
      db.userDomains.find? (fun u => u.domain == dom && u.isVerified) = none →
      db.systemDomains.find? (fun s => s.domain == dom) = some sd →
        getRoutingInfo db a = some (.system sd.id)) := by
  refine ⟨?_, ?_, ?_, ?_, ?_, ?_⟩
  · intro db a p hp
    simp [webhookResolve, hp]
  · intro db a t hp ht
    simp [webhookResolve, hp, ht]
  · intro db a hp ht
    simp [webhookResolve, hp, ht]
  · intro db a cd sd
    rfl
  · intro db a dom ud hdom hud
    simp [getRoutingInfo, hdom, hud]
  · intro db a dom sd hdom hud hsd
    simp [getRoutingInfo, hdom, hud, hsd]

/-- Witness for `resolution_order_in_source`: an address matching both a
premium mailbox and a system-domain record resolves to the premium
route. -/
theorem resolution_order_in_source_witness :
    premiumLookup
        { dbPremiumFwd with systemDomains := [{ id := 3, domain := "premium.test".toList }] }
        premiumAddr =
      some { id := 1, email := premiumAddr, active := true,
             forwardTo := some fwdTarget, userId := 7 } ∧
    webhookResolve
        { dbPremiumFwd with systemDomains := [{ id := 3, domain := "premium.test".toList }] }
        premiumAddr = .premiumRoute 1 (some fwdTarget) :=
  ⟨by decide,
    resolution_order_in_source.1
      { dbPremiumFwd with systemDomains := [{ id := 3, domain := "premium.test".toList }] }
      premiumAddr
      { id := 1, email := premiumAddr, active := true,
        forwardTo := some fwdTarget, userId := 7 } (by decide)⟩

/-! ## C10 — the monitor sweep never touches `is_verified` -/

theorem setDomainStatus_frame (rows : List UserDomainRow) (domId : Nat) (st : List Char) :
    (setDomainStatus rows domId st).map domainFrame = rows.map domainFrame := by
  unfold setDomainStatus
  rw [List.map_map]
  refine List.map_congr_left fun r _ => ?_
  by_cases h : r.id = domId <;> simp [h, domainFrame]

theorem monitorFrameInv_refl (db : DB) : monitorFrameInv db db :=
  ⟨rfl, ⟨[], by simp⟩, rfl, rfl, rfl, rfl, rfl, rfl, rfl, rfl⟩

theorem monitorFrameInv_trans {db0 db1 db2 : DB}
    (h1 : monitorFrameInv db0 db1) (h2 : monitorFrameInv db1 db2) :
    monitorFrameInv db0 db2 := by
  obtain ⟨hu1, ⟨n1, hi1⟩, hrest1⟩ := h1
  obtain ⟨hu2, ⟨n2, hi2⟩, hrest2⟩ := h2
  refine ⟨hu2.trans hu1, ⟨n1 ++ n2, ?_⟩, ?_⟩
  · rw [hi2, hi1, List.append_assoc]
  · obtain ⟨a1, b1, c1, d1, e1, f1, g1, k1⟩ := hrest1
    obtain ⟨a2, b2, c2, d2, e2, f2, g2, k2⟩ := hrest2
    exact ⟨a2.trans a1, b2.trans b1, c2.trans c1, d2.trans d1, e2.trans e1,
      f2.trans f1, g2.trans g1, k2.trans k1⟩

theorem monitorStep_inv (check : List Char → Bool) (db : DB) (d : UserDomainRow) :
    monitorFrameInv db (monitorStep check db d) := by
  unfold monitorStep
  by_cases hc : !(check d.domain)
  · simp only [hc, if_true]
    exact ⟨setDomainStatus_frame _ _ _, ⟨_, rfl⟩, rfl, rfl, rfl, rfl, rfl, rfl, rfl, rfl⟩
  · simp only [hc, if_false]
    by_cases hs : d.status = inactiveStatus
    · simp only [hs, if_true]
      exact ⟨setDomainStatus_frame _ _ _, ⟨[], by simp⟩, rfl, rfl, rfl, rfl, rfl, rfl,
        rfl, rfl⟩
    · simp only [hs, if_false]
      exact monitorFrameInv_refl db

theorem foldl_monitorStep_inv (check : List Char → Bool) :
    ∀ (snap : List UserDomainRow) (db : DB),
      monitorFrameInv db (snap.foldl (monitorStep check) db) := by
  intro snap
  induction snap with
  | nil => intro db; exact monitorFrameInv_refl db
  | cons d ds ih =>
    intro db
    exact monitorFrameInv_trans (monitorStep_inv check db d) (ih (monitorStep check db d))

theorem filter_verified_map_id_of_frame_eq :
    ∀ {l1 l2 : List UserDomainRow}, l1.map domainFrame = l2.map domainFrame →
      (l1.filter fun r => r.isVerified).map (fun r => r.id) =
        (l2.filter fun r => r.isVerified).map (fun r => r.id) := by
  intro l1
  induction l1 with
  | nil =>
    intro l2 h
    cases l2 with
    | nil => rfl
    | cons b t2 => simp at h
  | cons a t ih =>
    intro l2 h
    cases l2 with
    | nil => simp at h
    | cons b t2 =>
      simp only [List.map_cons, List.cons.injEq, domainFrame, Prod.mk.injEq] at h
      obtain ⟨⟨hid, _, _, hver, _⟩, htl⟩ := h
      by_cases hv : a.isVerified = true
      · rw [List.filter_cons_of_pos hv, List.filter_cons_of_pos (hver ▸ hv)]
        simp only [List.map_cons, hid, ih htl]
      · rw [List.filter_cons_of_neg hv, List.filter_cons_of_neg (hver ▸ hv)]
        exact ih htl

/-- C10: the monitor sweep never modifies a domain's `is_verified` flag —
on `user_domains` it can change only the `status` column (every other
column of every row, pointwise, is preserved), it only appends to
`domain_issues`, it touches no other table, and the set of domain ids the
next sweep selects (`is_verified = 1`) is exactly the set this sweep
selected. -/
theorem monitor_never_touches_is_verified :
    ∀ (db : DB) (check : List Char → Bool),
      (monitorDomains db check).userDomains.map domainFrame =
        db.userDomains.map domainFrame ∧
      (∃ newIssues, (monitorDomains db check).domainIssues =
        db.domainIssues ++ newIssues) ∧
      ((monitorDomains db check).userDomains.filter fun r => r.isVerified).map
          (fun r => r.id) =
        (db.userDomains.filter fun r => r.isVerified).map (fun r => r.id) ∧
      (monitorDomains db check).premiumEmails = db.premiumEmails ∧
      (monitorDomains db check).tempEmails = db.tempEmails ∧
      (monitorDomains db check).receivedEmails = db.receivedEmails ∧
      (monitorDomains db check).emailAttachments = db.emailAttachments := by
  intro db check
  have hinv := foldl_monitorStep_inv check (db.userDomains.filter fun r => r.isVerified) db
  obtain ⟨hu, hi, ha, hb, _, _, _, hf, hg, _⟩ := hinv
  exact ⟨hu, hi, filter_verified_map_id_of_frame_eq hu, ha, hb, hf, hg⟩

/-! ## C7 — subject cleaning idempotence -/

theorem replaceAllLit_eq_self {pat repl s : List Char} (hpat : pat.head? = some '&')
    (hs : ('&' : Char) ∉ s) : replaceAllLit pat repl s = s := by
  unfold replaceAllLit
  induction s with
  | nil => rfl
  | cons c rest ih =>
    have hc : c ≠ '&' := fun h => hs (h ▸ List.mem_cons_self c rest)
    have hrest : ('&' : Char) ∉ rest := fun hm => hs (List.mem_cons_of_mem _ hm)
    have hnp : ¬(pat ≠ [] ∧ pat.isPrefixOf (c :: rest)) := by
      rintro ⟨hne, hpre⟩
      cases pat with
      | nil => exact hne rfl
      | cons p ps =>
        have hp : p = '&' := by simpa using hpat
        subst hp
        obtain ⟨t, htt⟩ := List.isPrefixOf_iff_prefix.mp hpre
        exact hc (List.cons.injEq .. ▸ htt).1.symm
    rw [replaceAllAux, if_neg hnp, ih hrest]

theorem decodeNumEntities_eq_self {s : List Char} (hs : ('&' : Char) ∉ s) :
    decodeNumEntities s = s := by
  unfold decodeNumEntities
  induction s with
  | nil => rfl
  | cons c rest ih =>
    have hc : ¬(c = '&') := fun h => hs (h ▸ List.mem_cons_self c rest)
    have hrest : ('&' : Char) ∉ rest := fun hm => hs (List.mem_cons_of_mem _ hm)
    rw [decodeNumAux.eq_def]
    split
    · rename_i h1 h2
      exact absurd h2 (List.cons_ne_nil c rest)
    · rename_i h1 h2
      exact absurd h1 (by omega)
    · rename_i h1 h2
      injection h2 with h3 h4
      exact absurd h3 hc
    · rename_i h1 h2
      injection h2 with h3 h4
      subst h3
      subst h4
      rw [ih hrest]

theorem decodeEntities_eq_self {s : List Char} (hs : ('&' : Char) ∉ s) :
    decodeEntities s = s := by
  unfold decodeEntities
  rw [@replaceAllLit_eq_self quotEnt _ _ rfl hs,
    @replaceAllLit_eq_self ampEnt _ _ rfl hs,
    @replaceAllLit_eq_self ltEnt _ _ rfl hs,
    @replaceAllLit_eq_self gtEnt _ _ rfl hs,
    decodeNumEntities_eq_self hs]

theorem cleanSubject_ne_nil (s : List Char) : cleanSubject s ≠ [] := by
  simp only [cleanSubject]
  split
  · decide
  · split
    · split
      · decide
      · assumption
    · split
      · decide
      · assumption

theorem cleanSubject_len_le (s : List Char) : (cleanSubject s).length ≤ 100 := by
  simp only [cleanSubject]
  split
  · decide
  · split
    · rename_i hlong
      split
      · decide
      · simp only [List.length_append, List.length_take]
        have : ellipsisTail.length = 3 := by decide
        omega
    · rename_i hshort
      split
      · decide
      · omega

theorem headNoWs_dropWhile (l : List Char) : headNoWs (l.dropWhile jsIsSpace) = true := by
  induction l with
  | nil => rfl
  | cons c rest ih =>
    by_cases h : jsIsSpace c = true
    · simpa [List.dropWhile_cons, h] using ih
    · simp [List.dropWhile_cons, h, headNoWs]

theorem headNoWs_mono {m l : List Char} (hp : m <+: l) (h : headNoWs l = true) :
    headNoWs m = true := by
  cases m with
  | nil => rfl
  | cons c t =>
    obtain ⟨r, hr⟩ := hp
    subst hr
    simpa [headNoWs] using h

theorem headNoWs_spec {l : List Char} (h : headNoWs l = true) {y : Char}
    (hy : y ∈ l.head?) : jsIsSpace y = false := by
  cases l with
  | nil => simp at hy
  | cons c t =>
    have : c = y := by simpa using hy
    subst this
    simpa [headNoWs] using h

theorem lastNoWs_spec {l : List Char} (h : lastNoWs l = true) {y : Char}
    (hy : y ∈ l.getLast?) : jsIsSpace y = false := by
  cases hgl : l.getLast? with
  | none => rw [hgl] at hy; simp at hy
  | some c =>
    rw [hgl] at hy
    have : c = y := by simpa using hy
    subst this
    simpa [lastNoWs, hgl] using h

theorem headNoWs_collapseWs {l : List Char} (h : headNoWs l = true) :
    headNoWs (collapseWs l) = true := by
  cases l with
  | nil => rfl
  | cons c rest =>
    have hc : jsIsSpace c = false := by simpa [headNoWs] using h
    simp [collapseWs, collapseAux, hc, headNoWs]

theorem collapseAux_true_headNoWs : ∀ l : List Char, headNoWs (collapseAux true l) = true
  | [] => rfl
  | c :: rest => by
    by_cases hws : jsIsSpace c = true
    · simpa [collapseAux, hws] using collapseAux_true_headNoWs rest
    · simp [collapseAux, hws, headNoWs]

theorem collapseAux_spacedShape : ∀ (l : List Char) (b : Bool),
    spacedShape (collapseAux b l) := by
  intro l
  induction l with
  | nil =>
    intro b
    exact ⟨fun c hc => by simp [collapseAux] at hc, by simp [collapseAux, noAdjSpaces]⟩
  | cons c rest ih =>
    intro b
    by_cases hws : jsIsSpace c = true
    · cases b with
      | true =>
        have heq : collapseAux true (c :: rest) = collapseAux true rest := by
          simp [collapseAux, hws]
        rw [heq]
        exact ih true
      | false =>
        have heq : collapseAux false (c :: rest) = ' ' :: collapseAux true rest := by
          simp [collapseAux, hws]
        rw [heq]
        constructor
        · intro x hx hwsx
          rcases List.mem_cons.mp hx with h1 | h2
          · exact h1
          · exact (ih true).1 x h2 hwsx
        · refine List.chain'_cons'.mpr ⟨?_, (ih true).2⟩
          intro y hy
          rintro ⟨_, h2⟩
          have := headNoWs_spec (collapseAux_true_headNoWs rest) hy
          rw [this] at h2
          exact Bool.false_ne_true h2
    · have heq : collapseAux b (c :: rest) = c :: collapseAux false rest := by
        simp [collapseAux, hws]
      rw [heq]
      constructor
      · intro x hx hwsx
        rcases List.mem_cons.mp hx with h1 | h2
        · subst h1; exact absurd hwsx hws
        · exact (ih false).1 x h2 hwsx
      · refine List.chain'_cons'.mpr ⟨?_, (ih false).2⟩
        rintro y hy ⟨h1, h2⟩
        exact hws h1

theorem collapseWs_spacedShape (l : List Char) : spacedShape (collapseWs l) :=
  collapseAux_spacedShape l false

theorem spacedShape_contiguous {m l : List Char} (hm : m <:+: l) (h : spacedShape l) :
    spacedShape m :=
  ⟨fun c hc hw => h.1 c (hm.sublist.mem hc) hw, List.Chain'.infix h.2 hm⟩

theorem jsTrim_contiguous (l : List Char) : jsTrim l <:+: l := by
  unfold jsTrim
  exact (( List.rdropWhile_prefix jsIsSpace _).isInfix).trans
    ((List.dropWhile_suffix jsIsSpace).isInfix)

theorem headNoWs_jsTrim (l : List Char) : headNoWs (jsTrim l) = true := by
  unfold jsTrim
  exact headNoWs_mono ( List.rdropWhile_prefix jsIsSpace _) (headNoWs_dropWhile l)

theorem lastNoWs_jsTrim (l : List Char) : lastNoWs (jsTrim l) = true := by
  unfold jsTrim
  by_cases h : (l.dropWhile jsIsSpace).rdropWhile jsIsSpace = []
  · simp [lastNoWs, h]
  · have hlast := List.rdropWhile_last_not jsIsSpace (l.dropWhile jsIsSpace) h
    have hgl := List.getLast?_eq_getLast _ h
    simp only [lastNoWs, hgl]
    simpa using hlast

theorem wsNormal_trim_collapse (l : List Char) : wsNormal (jsTrim (collapseWs l)) :=
  ⟨spacedShape_contiguous (jsTrim_contiguous _) (collapseWs_spacedShape l), headNoWs_jsTrim _,
    lastNoWs_jsTrim _⟩

theorem noAdjSpaces_of_B : ∀ {l : List Char}, noAdjSpacesB l = true → noAdjSpaces l
  | [] => fun _ => List.chain'_nil
  | [_] => fun _ => List.chain'_singleton _
  | a :: b :: rest => by
    intro h
    simp only [noAdjSpacesB, Bool.and_eq_true, Bool.not_eq_true'] at h
    refine List.chain'_cons.mpr ⟨?_, noAdjSpaces_of_B h.2⟩
    rintro ⟨h1, h2⟩
    rw [h1, h2] at h
    simp at h

theorem lastNoWs_cons_cons {c d : Char} {r : List Char}
    (h : lastNoWs (c :: d :: r) = true) : lastNoWs (d :: r) = true := by
  have : (c :: d :: r).getLast? = (d :: r).getLast? := List.getLast?_cons_cons ..
  simpa [lastNoWs, this] using h

theorem collapseWs_eq_self : ∀ {l : List Char}, spacedShape l → lastNoWs l = true →
    collapseWs l = l := by
  intro l
  unfold collapseWs
  induction l with
  | nil => intro _ _; rfl
  | cons c rest ih =>
    intro hsp hlast
    by_cases hws : jsIsSpace c = true
    · have hc : c = ' ' := hsp.1 c (List.mem_cons_self c rest) hws
      cases rest with
      | nil => exact absurd hlast (by simp [lastNoWs, hws])
      | cons d rest2 =>
        have hd : jsIsSpace d = false := by
          have hpair := (List.chain'_cons.mp hsp.2).1
          by_cases hdd : jsIsSpace d = true
          · exact absurd ⟨hws, hdd⟩ hpair
          · simpa using hdd
        have hrest : collapseAux false (d :: rest2) = d :: rest2 :=
          ih ⟨fun x hx hw => hsp.1 x (List.mem_cons_of_mem _ hx) hw, hsp.2.tail⟩
            (lastNoWs_cons_cons hlast)
        have hstep : collapseAux false (d :: rest2) = d :: collapseAux false rest2 := by
          simp [collapseAux, hd]
        have hrest2 : collapseAux false rest2 = rest2 := by
          rw [hstep] at hrest
          exact (List.cons.injEq .. ▸ hrest).2
        have : collapseAux false (c :: d :: rest2) =
            ' ' :: collapseAux true (d :: rest2) := by
          simp [collapseAux, hws]
        rw [this]
        have : collapseAux true (d :: rest2) = d :: collapseAux false rest2 := by
          simp [collapseAux, hd]
        rw [this, hrest2, hc]
    · have : collapseAux false (c :: rest) = c :: collapseAux false rest := by
        simp [collapseAux, hws]
      rw [this]
      congr 1
      apply ih ⟨fun x hx hw => hsp.1 x (List.mem_cons_of_mem _ hx) hw, hsp.2.tail⟩
      cases rest with
      | nil => simp [lastNoWs]
      | cons d r2 => exact lastNoWs_cons_cons hlast

theorem jsTrim_eq_self {l : List Char} (hh : headNoWs l = true) (hl : lastNoWs l = true) :
    jsTrim l = l := by
  unfold jsTrim
  have h1 : l.dropWhile jsIsSpace = l := by
    rw [List.dropWhile_eq_self_iff]
    intro hlen
    cases l with
    | nil => simp at hlen
    | cons c t => simpa [headNoWs] using hh
  rw [h1, List.rdropWhile_eq_self_iff]
  intro hne
  have hgl := List.getLast?_eq_getLast l hne
  have := lastNoWs_spec hl (show l.getLast hne ∈ l.getLast? by rw [hgl]; rfl)
  simp [this]

theorem wsNormal_truncate {l : List Char} (h : wsNormal l) (hne : l ≠ []) :
    wsNormal (l.take 97 ++ ellipsisTail) := by
  obtain ⟨⟨hok, hch⟩, hh, hl⟩ := h
  refine ⟨⟨?_, ?_⟩, ?_, ?_⟩
  · intro c hc hw
    rcases List.mem_append.mp hc with h1 | h2
    · exact hok c ((List.take_sublist _ _).mem h1) hw
    · have : c = '.' := by
        simpa [ellipsisTail] using h2
      subst this
      exact absurd hw (by decide)
  · rw [noAdjSpaces] at hch ⊢
    rw [List.chain'_append]
    refine ⟨ List.Chain'.prefix hch ( List.take_prefix _ _), noAdjSpaces_of_B (by decide), ?_⟩
    intro x hx y hy
    have : '.' = y := by
      have hhd : ellipsisTail.head? = some '.' := rfl
      rw [hhd] at hy
      simpa using hy
    subst this
    rintro ⟨_, h2⟩
    exact absurd h2 (by decide)
  · cases l with
    | nil => exact absurd rfl hne
    | cons c t =>
      have : (c :: t).take 97 ++ ellipsisTail = c :: (t.take 96 ++ ellipsisTail) := rfl
      rw [this]
      simpa [headNoWs] using hh
  · have : (l.take 97 ++ ellipsisTail).getLast? = ellipsisTail.getLast? :=
      List.getLast?_append_of_ne_nil _ (by decide)
    simp [lastNoWs, this]
    decide

theorem wsNormal_noSubject : wsNormal noSubject :=
  ⟨⟨by unfold okSpaceChars; decide, noAdjSpaces_of_B (by decide)⟩, by decide, by decide⟩

theorem cleanSubject_wsNormal (s : List Char) : wsNormal (cleanSubject s) := by
  simp only [cleanSubject]
  split
  · exact wsNormal_noSubject
  · split
    · rename_i hlong
      split
      · exact wsNormal_noSubject
      · exact wsNormal_truncate (wsNormal_trim_collapse _)
          (by intro h0; rw [h0] at hlong; simp at hlong)
    · split
      · exact wsNormal_noSubject
      · exact wsNormal_trim_collapse _

/-- C7 counterexample: subject cleaning is not idempotent.  Each prefix
pattern is applied once, in a fixed order, so `"Fwd: Re: Hi"` cleans to
`"Re: Hi"` — the `re:` pattern was already tried before `fwd:` exposed the
second prefix — and a second cleaning strips it further to `"Hi"`. -/
theorem cleanSubject_not_idempotent :
    cleanSubject ck7Input = "Re: Hi".toList ∧
    cleanSubject (cleanSubject ck7Input) = "Hi".toList ∧
    cleanSubject (cleanSubject ck7Input) ≠ cleanSubject ck7Input := by
  refine ⟨by decide, by decide, by decide⟩

/-- C7 amended: subject cleaning is idempotent on every subject whose
cleaned form is a fixed point of the prefix-stripping pass and contains no
`&` (no decodable HTML entity).  The counterexamples are exactly the
cleaned subjects that still expose a reply/forward/spam/bounce/auto-reply
prefix or a decodable entity. -/
theorem cleanSubject_idempotent_unless (s : List Char)
    (h1 : stripSubjectTags (cleanSubject s) = cleanSubject s)
    (h2 : ('&' : Char) ∉ cleanSubject s) :
    cleanSubject (cleanSubject s) = cleanSubject s := by
  have hne := cleanSubject_ne_nil s
  have hnorm := cleanSubject_wsNormal s
  have hlen := cleanSubject_len_le s
  have hc3 : jsTrim (collapseWs (cleanSubject s)) = cleanSubject s := by
    rw [collapseWs_eq_self hnorm.1 hnorm.2.2]
    exact jsTrim_eq_self hnorm.2.1 hnorm.2.2
  have hnot : ¬ 100 < (cleanSubject s).length := by omega
  conv_lhs => rw [cleanSubject.eq_def]
  rw [if_neg hne]
  simp only [h1, decodeEntities_eq_self h2, hc3, hnot, if_false, if_neg hne]

/-- Witness for `cleanSubject_idempotent_unless` at `"Hello World"`. -/
theorem cleanSubject_idempotent_unless_witness :
    stripSubjectTags (cleanSubject wit7Input) = cleanSubject wit7Input ∧
    ('&' : Char) ∉ cleanSubject wit7Input ∧
    cleanSubject (cleanSubject wit7Input) = cleanSubject wit7Input :=
  ⟨by decide, by decide, cleanSubject_idempotent_unless wit7Input (by decide) (by decide)⟩
